import Mathlib

/-!
Verification development for the Codebase Guide engine (src/src/extension.ts).

The pure analysis pipeline of the extension is shallowly embedded here:
regular-expression matching is modelled character by character (with the
backtracking order of the JavaScript engine made explicit where it matters),
and the VS Code collaborators (workspace file search, file stat, URI joining,
relative-path display, document reading) are passed in as function arguments,
mirroring the collaborator contracts of the design document.
-/

/-! ## Character and string utilities -/

/-- The whitespace class of the JavaScript regex escape for whitespace,
restricted to the ASCII characters that can occur in the modelled inputs. -/
def isWsChar (c : Char) : Bool :=
  c = ' ' || c = '\t' || c = '\n' || c = '\r' || c.toNat = 11 || c.toNat = 12

/-- The word-character class of JavaScript regexes: letters, digits, underscore. -/
def isWordChar (c : Char) : Bool :=
  c.isAlphanum || c = '_'

/-- Characters allowed in an extracted class/id selector name: word chars and dash. -/
def isSelChar (c : Char) : Bool :=
  isWordChar c || c = '-'

/-- True when the character is a single or double quote (the quote class of the
import/require and selector regexes). -/
def isQuoteChar (c : Char) : Bool :=
  c.toNat = 39 || c = '"'

def lowerL (cs : List Char) : List Char := cs.map Char.toLower

def lowerStr (s : String) : String := String.mk (lowerL s.data)

/-- JavaScript trim: strip whitespace from both ends. -/
def trimL (cs : List Char) : List Char :=
  ((cs.dropWhile isWsChar).reverse.dropWhile isWsChar).reverse

def trimStr (s : String) : String := String.mk (trimL s.data)

/-- Substring test (the includes method of JavaScript strings). -/
def hasSub (needle : List Char) : List Char → Bool
  | [] => needle.isEmpty
  | c :: t => needle.isPrefixOf (c :: t) || hasSub needle t

def endsWithL (hay suf : List Char) : Bool := suf.isSuffixOf hay

/-- Match a literal at the head of the input, returning the rest on success. -/
def stripLit : List Char → List Char → Option (List Char)
  | [], cs => some cs
  | _ :: _, [] => none
  | l :: ls, c :: cs => if c = l then stripLit ls cs else none

def dropWsL (cs : List Char) : List Char := cs.dropWhile isWsChar

def leadWsCount (cs : List Char) : Nat := (cs.takeWhile isWsChar).length

/-- Greedy match of one-or-more whitespace (the regex one-or-more whitespace
item followed by a non-whitespace literal, where greediness is deterministic). -/
def stripWsPlus (cs : List Char) : Option (List Char) :=
  match cs with
  | c :: t => if isWsChar c then some (dropWsL (c :: t)) else none
  | [] => none

def wordRun (cs : List Char) : List Char := cs.takeWhile isWordChar

/-- A maximal nonempty run of word characters at the head of the input,
as captured by a one-or-more word-character group. -/
def bareName (cs : List Char) : Option String :=
  let nm := wordRun cs
  if nm.isEmpty then none else some (String.mk nm)

/-! ## Document analyzer (analyzeDocument)

One document line is matched against the four regexes of analyzeDocument.
Each matcher follows the JavaScript pattern character by character; where the
regex engine would backtrack, the equivalent deterministic reading is used and
justified in a comment. -/

/-- Heading regex: one to three hash marks anchored at the start, at least one
whitespace character, then the captured rest of the line (trimmed by the
caller; the trim is folded in here). A run of four or more hash marks never
matches because backtracking still leaves a hash mark where whitespace is
required. -/
def headingOf (cs : List Char) : Option String :=
  let hashes := (cs.takeWhile (· = '#')).length
  let rest := cs.drop hashes
  if 1 ≤ hashes ∧ hashes ≤ 3 then
    match rest with
    | c :: _ => if isWsChar c then some (String.mk (trimL rest)) else none
    | [] => none
  else none

/-- The optional declaration-kind keywords of the export regex, in the
alternation order of the source. No keyword is a prefix of another, so at most
one alternative can match at a given position. -/
def kindKeywords : List (List Char) :=
  ["class".data, "function".data, "const".data, "let".data, "var".data,
   "interface".data, "type".data, "enum".data]

/-- The tail of the export regex after the optional default marker: an optional
kind keyword, optional whitespace, then a captured word run. If a kind keyword
matches but no name follows, the regex engine backtracks to the keyword-absent
alternative, which is coded as the second branch. -/
def kindAttempt (cs : List Char) : Option String :=
  match kindKeywords.findSome? (fun k => stripLit k cs) with
  | some r =>
    match bareName (dropWsL r) with
    | some nm => some nm
    | none => bareName cs
  | none => bareName cs

/-- Export regex of analyzeDocument: optional leading whitespace, the export
keyword, whitespace, an optional default marker followed by whitespace, an
optional kind keyword, optional whitespace, and a captured identifier. The
default-present path is tried first, matching the preference of the optional
group; on its failure the engine falls back to treating the text after the
export keyword directly. -/
def exportNameOf (cs : List Char) : Option String :=
  match stripLit "export".data (dropWsL cs) with
  | none => none
  | some r1 =>
    match stripWsPlus r1 with
    | none => none
    | some r2 =>
      let viaDefault :=
        match stripLit "default".data r2 with
        | some d1 =>
          match stripWsPlus d1 with
          | some d2 => kindAttempt d2
          | none => none
        | none => none
      match viaDefault with
      | some nm => some nm
      | none => kindAttempt r2

/-- Strip an optional keyword followed by mandatory whitespace (the optional
groups for export and async in the declaration regexes). When the keyword is
present but the continuation fails, the regex cannot recover by dropping the
keyword, because the remaining text then starts with that same keyword and no
later literal matches it; so taking the keyword whenever it parses is faithful. -/
def stripOptKw (kw : List Char) (cs : List Char) : List Char :=
  match stripLit kw cs with
  | some r =>
    match stripWsPlus r with
    | some r2 => r2
    | none => cs
  | none => cs

/-- Function-declaration regex: at most two leading whitespace characters,
optional export keyword, optional async keyword, the function keyword,
whitespace, and a captured identifier. -/
def functionDeclOf (cs : List Char) : Option String :=
  let k := leadWsCount cs
  if k ≤ 2 then
    let b0 := cs.drop k
    let b1 := stripOptKw "export".data b0
    let b2 := stripOptKw "async".data b1
    match stripLit "function".data b2 with
    | none => none
    | some r3 =>
      match stripWsPlus r3 with
      | none => none
      | some r4 => bareName r4
  else none

/-- Class-declaration regex: at most two leading whitespace characters,
optional export keyword, the class keyword, whitespace, a captured identifier. -/
def classDeclOf (cs : List Char) : Option String :=
  let k := leadWsCount cs
  if k ≤ 2 then
    let b0 := cs.drop k
    let b1 := stripOptKw "export".data b0
    match stripLit "class".data b1 with
    | none => none
    | some r3 =>
      match stripWsPlus r3 with
      | none => none
      | some r4 => bareName r4
  else none

/-- Arrow-function regex: at most two leading whitespace characters, optional
export keyword, the const keyword, whitespace, a captured identifier, an equals
sign, an optional async keyword with optional whitespace, a parenthesised
parameter list without closing parens inside, and an arrow. The greedy
parameter-list item stops at the first closing paren, and no backtracking past
it is possible since the class excludes the closing paren. -/
def arrowDeclOf (cs : List Char) : Option String :=
  let k := leadWsCount cs
  if k ≤ 2 then
    let b0 := cs.drop k
    let b1 := stripOptKw "export".data b0
    match stripLit "const".data b1 with
    | none => none
    | some r1 =>
      match stripWsPlus r1 with
      | none => none
      | some r2 =>
        let nm := wordRun r2
        if nm.isEmpty then none
        else
          match dropWsL (r2.drop nm.length) with
          | c :: t =>
            if c = '=' then
              let r4 := dropWsL t
              let r5 :=
                match stripLit "async".data r4 with
                | some a => dropWsL a
                | none => r4
              match r5 with
              | c2 :: t2 =>
                if c2 = '(' then
                  let inside := t2.takeWhile (fun ch => ch ≠ ')')
                  match t2.drop inside.length with
                  | c3 :: t3 =>
                    if c3 = ')' then
                      match stripLit "=>".data (dropWsL t3) with
                      | some _ => some (String.mk nm)
                      | none => none
                    else none
                  | [] => none
                else none
              | [] => none
            else none
          | [] => none
  else none

/-- The per-line declaration extraction of analyzeDocument: function
declaration first, then class declaration, then const-bound arrow function,
each successful match ending the checks for that line. -/
def lineDeclOf (cs : List Char) : Option String :=
  match functionDeclOf cs with
  | some nm => some nm
  | none =>
    match classDeclOf cs with
    | some nm => some nm
    | none => arrowDeclOf cs

structure FnDecl where
  name : String
  line : Nat
deriving DecidableEq, Repr

/-- The text-document collaborator: language id, file name, file-system path,
and the document text split into lines. -/
structure Doc where
  languageId : String
  fileName : String
  fsPath : String
  lines : List String
deriving DecidableEq, Repr

structure SummaryInfo where
  filePath : String
  relativePath : String
  lineCount : Nat
  headings : List String
  exports : List String
  functions : List FnDecl
deriving DecidableEq, Repr

/-- The line loop of analyzeDocument: headings are collected only for markdown
documents and only below the cap of five; export names are collected below the
cap of eight; declarations are collected unbounded with their one-based line
numbers. -/
def analyzeLoop (isMd : Bool) : Nat → List String → List String × List String × List FnDecl → List String × List String × List FnDecl
  | _, [], acc => acc
  | i, l :: rest, (hs, es, fs) =>
    let cs := l.data
    let hs2 :=
      if isMd then
        match headingOf cs with
        | some h => if hs.length < 5 then hs ++ [h] else hs
        | none => hs
      else hs
    let es2 :=
      match exportNameOf cs with
      | some e => if es.length < 8 then es ++ [e] else es
      | none => es
    let fs2 :=
      match lineDeclOf cs with
      | some nm => fs ++ [⟨nm, i + 1⟩]
      | none => fs
    analyzeLoop isMd (i + 1) rest (hs2, es2, fs2)

/-- Markdown classification of analyzeDocument: language id or lower-cased
file-name suffix. -/
def isMarkdownDoc (d : Doc) : Bool :=
  d.languageId = "markdown" || endsWithL (lowerL d.fileName.data) ".md".data

/-- The raw scan of a document before deduplication. -/
def docScan (d : Doc) : List String × List String × List FnDecl :=
  analyzeLoop (isMarkdownDoc d) 0 d.lines ([], [], [])

/-- First-occurrence deduplication of a string list, as performed by building a
JavaScript Set from the list and converting back (insertion order, an element
kept only the first time its value appears). -/
def keepFirstStr (seen : List String) : List String → List String
  | [] => []
  | x :: xs =>
    if seen.contains x then keepFirstStr seen xs
    else x :: keepFirstStr (x :: seen) xs

/-- First-occurrence deduplication by name, as performed by the filter over
findIndex in the source: an entry is kept exactly when no earlier entry has the
same name. -/
def keepFirstFn (seen : List String) : List FnDecl → List FnDecl
  | [] => []
  | x :: xs =>
    if seen.contains x.name then keepFirstFn seen xs
    else x :: keepFirstFn (x.name :: seen) xs

/-- analyzeDocument: produce the document summary. The relative-path display
collaborator is passed in. -/
def analyzeDocument (relP : String → String) (d : Doc) : SummaryInfo :=
  let scanned := docScan d
  { filePath := d.fsPath
    relativePath := relP d.fsPath
    lineCount := d.lines.length
    headings := scanned.1
    exports := keepFirstStr [] scanned.2.1
    functions := keepFirstFn [] scanned.2.2 }

/-! ## Question answering matcher (buildNextResponse) -/

/-- Fuel-driven splitting of a character list into its maximal word-character
runs, the effect of splitting on runs of non-word characters and dropping the
empty pieces (which the length filter would drop anyway). -/
def wordRunsGo : Nat → List Char → List String
  | 0, _ => []
  | _, [] => []
  | f + 1, c :: t =>
    if isWordChar c then
      String.mk (c :: t.takeWhile isWordChar) :: wordRunsGo f (t.dropWhile isWordChar)
    else wordRunsGo f t

def tokensOf (q : String) : List String :=
  wordRunsGo (q.data.length + 1) q.data

/-- The fixed stopword set of buildNextResponse. -/
def stopwords : List String :=
  ["what", "which", "where", "when", "then", "this", "that", "with", "from", "have", "your", "about"]

/-- Keywords of a question: lowercase it, split on non-word boundaries, keep
tokens longer than three characters, drop the stopwords. -/
def keywordsOf (q : String) : List String :=
  ((tokensOf (lowerStr q)).filter (fun t => t.length > 3)).filter (fun t => !stopwords.contains t)

/-- One attempt of the selector regex of extractNamedQuery at a fixed start:
the keyword literal, optional whitespace, an optional colon or equals sign,
optional whitespace, an optional quote, then a captured nonempty run of
selector characters. Consuming the optional colon/equals or quote when present
is faithful: if the capture then fails, the leftover punctuation cannot start a
capture either, so the keyword-anchored attempt fails both ways. -/
def attemptNamed (kw : List Char) (cs : List Char) : Option String :=
  match stripLit kw cs with
  | none => none
  | some r1 =>
    let r2 := dropWsL r1
    let r3 :=
      match r2 with
      | c :: t => if c = ':' || c = '=' then dropWsL t else r2
      | [] => r2
    let r4 :=
      match r3 with
      | c :: t => if isQuoteChar c then t else r3
      | [] => r3
    let nm := r4.takeWhile isSelChar
    if nm.isEmpty then none else some (String.mk nm)

/-- The scan of extractNamedQuery: the regex engine tries each start position
from the left and returns the first successful capture. -/
def extractNamedGo (kw : List Char) : Nat → List Char → Option String
  | 0, _ => none
  | _, [] => none
  | f + 1, c :: t =>
    match attemptNamed kw (c :: t) with
    | some nm => some nm
    | none => extractNamedGo kw f t

def extractNamed (kw : String) (s : String) : Option String :=
  extractNamedGo kw.data (s.data.length + 1) s.data

structure Evid where
  line : Nat
  text : String
deriving DecidableEq, Repr

structure NextResponse where
  question : String
  message : String
  evidence : List Evid
deriving DecidableEq, Repr

/-- The selector pass of buildNextResponse: markup lines match on the presence
of a class or id attribute marker together with the captured name; stylesheet
lines match on the formatted selector; the loop stops once six pieces of
evidence are collected (the check sits at the bottom of the loop body). -/
def selScan (isHtml isCss : Bool) (classQ idQ selQ : Option String) : Nat → List String → List Evid → List Evid
  | _, [], ev => ev
  | i, l :: rest, ev =>
    let low := lowerL l.data
    let ev2 :=
      if isHtml then
        match classQ with
        | some cq =>
          if hasSub "class=".data low && hasSub cq.data low then ev ++ [⟨i + 1, trimStr l⟩]
          else
            match idQ with
            | some iq =>
              if hasSub "id=".data low && hasSub iq.data low then ev ++ [⟨i + 1, trimStr l⟩] else ev
            | none => ev
        | none =>
          match idQ with
          | some iq =>
            if hasSub "id=".data low && hasSub iq.data low then ev ++ [⟨i + 1, trimStr l⟩] else ev
          | none => ev
      else if isCss then
        match selQ with
        | some sq => if hasSub sq.data low then ev ++ [⟨i + 1, trimStr l⟩] else ev
        | none => ev
      else ev
    if ev2.length ≥ 6 then ev2
    else selScan isHtml isCss classQ idQ selQ (i + 1) rest ev2

/-- The keyword pass of buildNextResponse: every line whose lowercased text
contains some keyword contributes evidence, until the cap of six (the check
sits at the top of the loop body). -/
def kwScan (keywords : List String) : Nat → List String → List Evid → List Evid
  | _, [], ev => ev
  | i, l :: rest, ev =>
    if ev.length ≥ 6 then ev
    else
      let low := lowerL l.data
      let ev2 :=
        if keywords.any (fun k => hasSub k.data low) then ev ++ [⟨i + 1, trimStr l⟩] else ev
      kwScan keywords (i + 1) rest ev2

def notFoundMsg : String :=
  "I could not find matching lines in the current file. Try a different question or choose another file."

def declsPointerMsg (n : Nat) : String :=
  "I could not find direct matches, but this file has " ++ toString n ++ " key functions you can explore."

/-- buildNextResponse: answer a free-text question against the current
document and summary. -/
def buildNextResponse (question : String) (doc : Option Doc) (current : Option SummaryInfo) : NextResponse :=
  let normalized := lowerStr question
  let isHtml :=
    match doc with
    | some d => d.languageId = "html" || endsWithL (lowerL d.fileName.data) ".html".data
    | none => false
  let isCss :=
    match doc with
    | some d => d.languageId = "css" || endsWithL (lowerL d.fileName.data) ".css".data
    | none => false
  let keywords := keywordsOf question
  let classQ := extractNamed "class" normalized
  let idQ := extractNamed "id" normalized
  let selQ :=
    match classQ with
    | some c => some ("." ++ c)
    | none =>
      match idQ with
      | some i => some ("#" ++ i)
      | none => none
  let evidence :=
    match doc with
    | none => []
    | some d =>
      let ev1 :=
        if (isHtml || isCss) && (classQ.isSome || idQ.isSome) then
          selScan isHtml isCss classQ idQ selQ 0 d.lines []
        else []
      kwScan keywords 0 d.lines ev1
  let msg1 :=
    match classQ with
    | some c => "Matching class \"" ++ c ++ "\" in this file."
    | none =>
      match idQ with
      | some i => "Matching id \"" ++ i ++ "\" in this file."
      | none => "Here are the lines in this file that best match your question."
  let msg2 := if doc.isNone || evidence.isEmpty then notFoundMsg else msg1
  let msg3 :=
    match current with
    | some c => if c.functions.length != 0 && evidence.isEmpty then declsPointerMsg c.functions.length else msg2
    | none => msg2
  ⟨question, msg3, evidence⟩

/-! ## Suggestion ranker (buildGuideSuggestions) -/

structure GuideSuggestion where
  label : String
  reason : String
  path : String
deriving DecidableEq, Repr

structure GState where
  seen : List String
  out : List GuideSuggestion
deriving DecidableEq, Repr

/-- The inner loop of buildGuideSuggestions over one file-search result list:
an unseen path is recorded in the shared seen set and appended with the rule
reason; a seen path is skipped. -/
def addCandidates (relP : String → String) (reason : String) : List String → GState → GState
  | [], st => st
  | u :: us, st =>
    if st.seen.contains u then addCandidates relP reason us st
    else addCandidates relP reason us ⟨st.seen ++ [u], st.out ++ [⟨relP u, reason, u⟩]⟩

/-- The outer loop of buildGuideSuggestions over the rule list, consulting the
file-search collaborator for each rule glob. -/
def rankGo (relP : String → String) (ff : String → List String) : List (String × String) → GState → GState
  | [], st => st
  | r :: rs, st => rankGo relP ff rs (addCandidates relP r.2 (ff r.1) st)

/-- The file-search collaborator as invoked by the ranker: files of the
snapshot matching the glob, minus those matching the dependency-cache exclude
glob, silently capped at twenty results. -/
def findFilesModel (globM : String → String → Bool) (files : List String) (glob : String) : List String :=
  (files.filter (fun f => globM glob f && !globM "**/node_modules/**" f)).take 20

/-- buildGuideSuggestions for an arbitrary ordered rule list. -/
def buildGuideSuggestionsR (globM : String → String → Bool) (files : List String) (relP : String → String) (rules : List (String × String)) : List GuideSuggestion :=
  (rankGo relP (findFilesModel globM files) rules ⟨[], []⟩).out

/-- The fixed pattern table of buildGuideSuggestions. -/
def guidePatterns : List (String × String) :=
  [("**/README.md", "Project overview and setup notes."),
   ("**/package.json", "Scripts, dependencies, and entry points."),
   ("**/src/index.*", "Likely application entry point."),
   ("**/src/main.*", "Likely application entry point."),
   ("**/src/app.*", "Core app wiring and middleware."),
   ("**/src/server.*", "HTTP server or runtime bootstrap."),
   ("**/src/routes/**", "Route definitions and endpoints."),
   ("**/src/controllers/**", "Endpoint handlers and business logic."),
   ("**/src/pages/**", "UI routes or page-level components.")]

def buildGuideSuggestions (globM : String → String → Bool) (files : List String) (relP : String → String) : List GuideSuggestion :=
  buildGuideSuggestionsR globM files relP guidePatterns

/-! ## Framework detector (detectFrameworks) -/

/-- The manifest collaborator: dependency names of the production and
development maps of the selected package manifest. readWorkspacePackageJson
returns an absent value when no manifest exists or reading or parsing fails,
so the whole manifest input is an Option. -/
structure Manifest where
  dependencies : List String
  devDependencies : List String
deriving DecidableEq, Repr

/-- Membership in the merge of the production and development dependency maps
(a spread of both objects, so a name is present when it is a key of either). -/
def hasDep (pj : Option Manifest) (n : String) : Bool :=
  match pj with
  | some m => m.dependencies.contains n || m.devDependencies.contains n
  | none => false

/-- Insertion into a JavaScript Set converted back in insertion order. -/
def setAdd (l : List String) (p : String) : List String :=
  if l.contains p then l else l ++ [p]

/-- The manifest pass of detectFrameworks: the fixed dependency-name checks in
source order, each adding its canonical framework name to the set. -/
def mfwFromFlags (h : String → Bool) : List String :=
  let f : List String := []
  let f := if h "next" then setAdd f "Next.js" else f
  let f := if h "react" then setAdd f "React" else f
  let f := if h "vite" then setAdd f "Vite" else f
  let f := if h "vue" then setAdd f "Vue" else f
  let f := if h "@angular/core" then setAdd f "Angular" else f
  let f := if h "svelte" || h "@sveltejs/kit" then setAdd f "Svelte" else f
  let f := if h "nuxt" then setAdd f "Nuxt" else f
  let f := if h "astro" then setAdd f "Astro" else f
  let f := if h "@nestjs/core" then setAdd f "NestJS" else f
  let f := if h "express" then setAdd f "Express" else f
  let f := if h "fastify" then setAdd f "Fastify" else f
  f

def manifestFrameworks (pj : Option Manifest) : List String :=
  mfwFromFlags (fun n => hasDep pj n)

/-- The fixed config-file fallback table of detectFrameworks. -/
def fallbackEntries : List (String × String) :=
  [("**/next.config.*", "Next.js"),
   ("**/vite.config.*", "Vite"),
   ("**/angular.json", "Angular"),
   ("**/svelte.config.*", "Svelte"),
   ("**/nuxt.config.*", "Nuxt"),
   ("**/astro.config.*", "Astro"),
   ("**/nest-cli.json", "NestJS")]

/-- The fallback pass: for each canonical config glob with at least one match
outside the dependency cache, add the corresponding framework to the set.
The existence collaborator abstracts findFiles with limit one. -/
def fallbackFrameworks (ffOne : String → Bool) (start : List String) : List String :=
  fallbackEntries.foldl (fun acc e => if ffOne e.1 then setAdd acc e.2 else acc) start

/-- detectFrameworks: the manifest pass, returned early when nonempty,
otherwise the config-file fallback continuing on the same (empty) set. -/
def detectFrameworks (pj : Option Manifest) (ffOne : String → Bool) : List String :=
  let fws := manifestFrameworks pj
  if fws.length > 0 then fws else fallbackFrameworks ffOne fws

/-! ## Walkthrough builder (buildWalkthroughSteps) -/

structure WalkStep where
  title : String
  details : String
  target : Option String
deriving DecidableEq, Repr

/-- Target resolution by suffix: the first suggestion whose lowercased label
ends with one of the given suffixes. -/
def findByEndsWith (sugg : List GuideSuggestion) (suffixes : List String) : Option String :=
  (sugg.find? (fun g => suffixes.any (fun suf => endsWithL (lowerL g.label.data) suf.data))).map (fun g => g.path)

/-- Target resolution by substring: the first suggestion whose lowercased
label contains the fragment. -/
def findByContains (sugg : List GuideSuggestion) (snippet : String) : Option String :=
  (sugg.find? (fun g => hasSub snippet.data (lowerL g.label.data))).map (fun g => g.path)

/-- buildWalkthroughSteps, transcribed push by push: the two opening steps,
one conditional block per framework branch in source order, and the four
generic closing steps. -/
def buildWalkthroughSteps (sugg : List GuideSuggestion) (frameworks : List String) : List WalkStep :=
  let steps0 : List WalkStep :=
    [⟨"Read the README", "Start with project goals, setup, and quickstart notes.",
      findByEndsWith sugg ["readme.md"]⟩,
     ⟨"Check package or build config", "Look for scripts, dependencies, and entry points.",
      findByEndsWith sugg ["package.json", "pyproject.toml", "pom.xml", "build.gradle"]⟩]
  let steps1 :=
    if frameworks.contains "Next.js" then
      steps0 ++
        [⟨"Review Next.js routing", "Routes come from app/ or pages/ directories.",
          findByEndsWith sugg ["app/layout.tsx", "app/page.tsx", "pages/_app.tsx", "pages/index.tsx"]⟩,
         ⟨"Check API routes", "Look under app/api or pages/api for endpoints.",
          (findByContains sugg "pages/api/").orElse (fun _ => findByContains sugg "app/api/")⟩]
    else steps0
  let steps2 :=
    if frameworks.contains "React" && frameworks.contains "Vite" then
      steps1 ++
        [⟨"Check Vite entry", "Vite typically starts in src/main.tsx or src/main.jsx.",
          findByEndsWith sugg ["src/main.tsx", "src/main.jsx", "src/main.ts", "src/main.js"]⟩,
         ⟨"Locate the root component", "Trace into App.tsx or App.jsx.",
          findByEndsWith sugg ["src/App.tsx", "src/App.jsx", "src/App.ts", "src/App.js"]⟩]
    else if frameworks.contains "React" then
      steps1 ++
        [⟨"Locate the root component", "Trace into App.tsx or App.jsx.",
          findByEndsWith sugg ["src/App.tsx", "src/App.jsx", "src/App.ts", "src/App.js"]⟩]
    else steps1
  let steps3 :=
    if frameworks.contains "Vue" then
      steps2 ++
        [⟨"Check Vue entry", "Vue apps typically start in src/main.ts or src/main.js.",
          findByEndsWith sugg ["src/main.ts", "src/main.js"]⟩,
         ⟨"Review root component", "Look for App.vue to understand layout and providers.",
          findByEndsWith sugg ["src/App.vue"]⟩,
         ⟨"Check routing", "Vue Router lives in src/router.",
          findByContains sugg "src/router/"⟩]
    else steps2
  let steps4 :=
    if frameworks.contains "Angular" then
      steps3 ++
        [⟨"Check Angular module", "AppModule wires components and providers.",
          findByEndsWith sugg ["src/app/app.module.ts"]⟩,
         ⟨"Check routing module", "Routes live in app-routing.module.ts.",
          findByEndsWith sugg ["src/app/app-routing.module.ts"]⟩]
    else steps3
  let steps5 :=
    if frameworks.contains "Svelte" then
      steps4 ++
        [⟨"Check Svelte entry", "SvelteKit routes live in src/routes.",
          findByContains sugg "src/routes/"⟩,
         ⟨"Check Svelte config", "Svelte config defines adapters and preprocessors.",
          findByEndsWith sugg ["svelte.config.js", "svelte.config.ts"]⟩]
    else steps4
  let steps6 :=
    if frameworks.contains "Astro" then
      steps5 ++
        [⟨"Check Astro pages", "Astro routes live in src/pages.",
          findByContains sugg "src/pages/"⟩,
         ⟨"Check Astro config", "Integrations and build settings are in astro.config.*.",
          findByEndsWith sugg ["astro.config.mjs", "astro.config.ts", "astro.config.js"]⟩]
    else steps5
  let steps7 :=
    if frameworks.contains "Nuxt" then
      steps6 ++
        [⟨"Check Nuxt app entry", "Nuxt uses pages/ and app.vue for layout.",
          findByEndsWith sugg ["app.vue", "pages/index.vue"]⟩,
         ⟨"Check Nuxt config", "Modules and runtime config live in nuxt.config.*.",
          findByEndsWith sugg ["nuxt.config.ts", "nuxt.config.js", "nuxt.config.mjs"]⟩]
    else steps6
  let steps8 :=
    if frameworks.contains "NestJS" then
      steps7 ++
        [⟨"Check NestJS entry", "Bootstrap happens in main.ts.",
          findByEndsWith sugg ["src/main.ts"]⟩,
         ⟨"Inspect the root module", "AppModule wires controllers and providers.",
          findByEndsWith sugg ["src/app.module.ts"]⟩]
    else steps7
  let steps9 :=
    if frameworks.contains "Express" || frameworks.contains "Fastify" then
      steps8 ++
        [⟨"Find server setup", "Look for app.ts/server.ts to see middleware and routes.",
          findByEndsWith sugg ["src/app.ts", "src/server.ts", "server.js", "app.js"]⟩,
         ⟨"Trace route registration", "Routes are usually organized under src/routes.",
          findByContains sugg "src/routes/"⟩]
    else steps8
  steps9 ++
    [⟨"Find the app entry point", "Locate the main file that starts the app runtime.",
      findByEndsWith sugg ["src/index.ts", "src/index.js", "src/main.ts", "src/main.js", "src/app.ts", "src/app.js", "src/server.ts", "src/server.js"]⟩,
     ⟨"Trace routes or pages", "Identify how requests or pages are registered.",
      findByEndsWith sugg ["src/routes/index.ts", "src/routes/index.js", "src/pages/index.tsx", "src/pages/index.jsx"]⟩,
     ⟨"Inspect controllers or handlers", "See how endpoints map to logic.",
      findByContains sugg "controllers/"⟩,
     ⟨"Follow data and services", "Find services, database clients, or data access layers.",
      findByContains sugg "services/"⟩]

/-! ## Import scanning (the import/require regex of buildNextSuggestions)

The global regex alternates an import-from branch and a require branch. The
scan tries both branches at each position from the left and restarts after the
end of each match. Greedy whitespace items and lazy dot items are enumerated
in the preference order of the JavaScript engine. -/

/-- Suffixes after consuming at least one whitespace character, greedily:
maximal consumption first, down to one character. -/
def wsSplitsDesc (cs : List Char) : List (List Char) :=
  let m := leadWsCount cs
  (List.range m).map (fun j => cs.drop (m - j))

/-- Suffixes after lazily consuming any number of non-newline characters:
zero characters first, growing one at a time up to the newline or the end. -/
def dotSplitsAsc (cs : List Char) : List (List Char) :=
  let m := (cs.takeWhile (fun c => c ≠ '\n')).length
  (List.range (m + 1)).map (fun n => cs.drop n)

/-- First success over a list of alternatives, in order. -/
def firstSomeL {α : Type} : List (List Char) → (List Char → Option α) → Option α
  | [], _ => none
  | x :: xs, f =>
    match f x with
    | some y => some y
    | none => firstSomeL xs f

/-- Lazy capture of the import branch: grow the captured group one non-newline
character at a time (at least one) until the next character is a quote, which
closes the group and the match. -/
def impCapGo : Nat → List Char → List Char → Option (String × List Char)
  | 0, _, _ => none
  | f + 1, acc, rest =>
    match rest with
    | [] => none
    | c :: t =>
      if isQuoteChar c then some (String.mk acc.reverse, t)
      else if c ≠ '\n' then impCapGo f (c :: acc) t
      else none

/-- The tail of the import branch after the lazy middle: whitespace, the from
keyword, whitespace, an opening quote, then the lazy capture. -/
def importTail (r3 : List Char) : Option (String × List Char) :=
  match stripWsPlus r3 with
  | none => none
  | some r4 =>
    match stripLit "from".data r4 with
    | none => none
    | some r5 =>
      match stripWsPlus r5 with
      | none => none
      | some r6 =>
        match r6 with
        | q :: rest =>
          if isQuoteChar q then
            match rest with
            | c0 :: t0 => if c0 ≠ '\n' then impCapGo (t0.length + 1) [c0] t0 else none
            | [] => none
          else none
        | [] => none

/-- The import branch attempted at a fixed position. -/
def tryImportAt (cs : List Char) : Option (String × List Char) :=
  match stripLit "import".data cs with
  | none => none
  | some r1 => firstSomeL (wsSplitsDesc r1) (fun r2 => firstSomeL (dotSplitsAsc r2) importTail)

/-- After a candidate closing quote of the require branch, the pattern still
needs optional whitespace and a closing paren. -/
def reqClose (cs : List Char) : Bool :=
  match dropWsL cs with
  | c :: _ => c = ')'
  | [] => false

/-- Lazy capture of the require branch: grow the group until a quote whose
continuation (optional whitespace then a closing paren) also matches; a quote
failing the continuation is absorbed into the capture and the search resumes. -/
def reqCapGo : Nat → List Char → List Char → Option (String × List Char)
  | 0, _, _ => none
  | f + 1, acc, rest =>
    match rest with
    | [] => none
    | c :: t =>
      if isQuoteChar c && reqClose t then some (String.mk acc.reverse, (dropWsL t).drop 1)
      else if c ≠ '\n' then reqCapGo f (c :: acc) t
      else none

/-- The require branch attempted at a fixed position. -/
def tryRequireAt (cs : List Char) : Option (String × List Char) :=
  match stripLit "require".data cs with
  | none => none
  | some r1 =>
    match dropWsL r1 with
    | c :: t =>
      if c = '(' then
        match dropWsL t with
        | q :: rest =>
          if isQuoteChar q then
            match rest with
            | c0 :: t0 => if c0 ≠ '\n' then reqCapGo (t0.length + 1) [c0] t0 else none
            | [] => none
          else none
        | [] => none
      else none
    | [] => none

/-- The global exec loop: at each position try the import branch, then the
require branch, and on success continue after the match. -/
def scanImports : Nat → List Char → List String
  | 0, _ => []
  | _, [] => []
  | f + 1, c :: t =>
    match tryImportAt (c :: t) with
    | some (g, rest) => g :: scanImports f rest
    | none =>
      match tryRequireAt (c :: t) with
      | some (g, rest) => g :: scanImports f rest
      | none => scanImports f t

/-- All specifiers captured by the import/require regex over the document text. -/
def parseImports (text : String) : List String :=
  scanImports text.data.length text.data

/-! ## Next-suggestion resolver (buildNextSuggestions) -/

structure NextSuggestion where
  label : String
  reason : String
  fsPath : String
deriving DecidableEq, Repr

structure NState where
  seen : List String
  res : List NextSuggestion
deriving DecidableEq, Repr

/-- The relative-specifier test of tier one: the JavaScript startsWith check
against a one-character dot prefix, expressed on the character list. -/
def startsWithDot (s : String) : Bool :=
  match s.data with
  | c :: _ => c = '.'
  | [] => false

/-- The fixed extension order of tier-one resolution. -/
def extList : List String :=
  ["", ".ts", ".tsx", ".js", ".jsx", "/index.ts", "/index.tsx", "/index.js", "/index.jsx"]

/-- Candidate paths for a relative specifier, in extension order, resolved
against the directory through the URI-join collaborator. -/
def importCandidates (joinP : String → String → String) (dir spec : String) : List String :=
  extList.map (fun e => joinP dir (spec ++ e))

/-- The extension loop with its break: the first candidate the stat
collaborator accepts wins and ends the loop. -/
def firstExisting (statV : String → Bool) : List String → Option String
  | [] => none
  | c :: cs => if statV c then some c else firstExisting statV cs

def resolveImport (statV : String → Bool) (joinP : String → String → String) (dir spec : String) : Option String :=
  firstExisting statV (importCandidates joinP dir spec)

/-- Tier one, one specifier: only relative specifiers are resolved; a resolved
candidate is appended when unseen, with the reason noting whether the file was
already learned; resolution stops at the first existing candidate either way. -/
def tier1Step (statV : String → Bool) (joinP : String → String → String) (relP : String → String) (learned : List String) (dir : String) (st : NState) (spec : String) : NState :=
  if startsWithDot spec then
    match resolveImport statV joinP dir spec with
    | none => st
    | some c =>
      if st.seen.contains c then st
      else
        ⟨st.seen ++ [c],
         st.res ++ [⟨relP c,
                     if learned.contains c then "Imported by current file (already explored)"
                     else "Imported by current file", c⟩]⟩
  else st

def tier1 (statV : String → Bool) (joinP : String → String → String) (relP : String → String) (learned : List String) (dir : String) (specs : List String) (st : NState) : NState :=
  specs.foldl (tier1Step statV joinP relP learned dir) st

/-- Tier two, the scan after the matched step: the first later step whose
target exists and is unseen is appended and ends the scan; steps without a
target or with a seen target are passed over without ending the scan. -/
def tier2Scan (relP : String → String) : List WalkStep → NState → NState
  | [], st => st
  | s :: rest, st =>
    match s.target with
    | some t =>
      if st.seen.contains t then tier2Scan relP rest st
      else ⟨st.seen ++ [t], st.res ++ [⟨relP t, "Next walkthrough step: " ++ s.title, t⟩]⟩
    | none => tier2Scan relP rest st

/-- Tier two: locate the current file among the walkthrough targets and scan
the subsequent steps. -/
def tier2 (relP : String → String) (steps : List WalkStep) (current : String) (st : NState) : NState :=
  match steps.findIdx? (fun s => s.target == some current) with
  | none => st
  | some i => tier2Scan relP (steps.drop (i + 1)) st

/-- Tier three: ranked suggestions not yet collected and not yet learned are
appended; after each iteration the loop stops once the combined result has
reached six entries (the check sits after the conditional push). -/
def tier3 (learned : List String) : List GuideSuggestion → NState → NState
  | [], st => st
  | g :: gs, st =>
    let st2 :=
      if !st.seen.contains g.path && !learned.contains g.path then
        ⟨st.seen ++ [g.path], st.res ++ [⟨g.label, g.reason, g.path⟩]⟩
      else st
    if st2.res.length ≥ 6 then st2 else tier3 learned gs st2

/-- The state after tiers one and two, starting from a seen set holding only
the current file. The directory of the current file is its URI joined with the
parent segment, as in the source. -/
def tier12 (statV : String → Bool) (joinP : String → String → String) (relP : String → String) (learned : List String) (text current : String) (steps : List WalkStep) : NState :=
  let st0 : NState := ⟨[current], []⟩
  let dir := joinP current ".."
  tier2 relP steps current (tier1 statV joinP relP learned dir (parseImports text) st0)

/-- buildNextSuggestions: the three tiers over one shared seen set. -/
def buildNextSuggestions (statV : String → Bool) (joinP : String → String → String) (relP : String → String) (learned : List String) (text current : String) (suggestions : List GuideSuggestion) (steps : List WalkStep) : List NextSuggestion :=
  (tier3 learned suggestions (tier12 statV joinP relP learned text current steps)).res

/-! ## Session state (the webview message loop) -/

inductive GuideMsg where
  | learnFile (path : String)
  | openFile (path : String)
  | jumpToLine (path : String) (line : Nat)
  | askNext (text : String)
deriving DecidableEq, Repr

/-- The process-wide mutable state of the extension session: the learned set,
the active context (current file, its summary) and the last question result. -/
structure Session where
  learnedFiles : List String
  currentLearnedUri : Option String
  currentSummary : Option SummaryInfo
  nextResponse : Option NextResponse
deriving DecidableEq, Repr

/-- The message handler of the guide panel, restricted to its effect on the
session state. learnFile analyzes the opened document, resets the question
result, makes the file current, and adds its path to the learned set; askNext
recomputes the question result against the current document and summary;
openFile and jumpToLine only drive the editor and leave the session unchanged. -/
def applyMsg (docSource : String → Doc) (relP : String → String) (s : Session) : GuideMsg → Session
  | GuideMsg.learnFile p =>
    let d := docSource p
    { s with
      currentSummary := some (analyzeDocument relP d)
      nextResponse := none
      currentLearnedUri := some d.fsPath
      learnedFiles := setAdd s.learnedFiles d.fsPath }
  | GuideMsg.openFile _ => s
  | GuideMsg.jumpToLine _ _ => s
  | GuideMsg.askNext t =>
    { s with
      nextResponse := some (buildNextResponse t (s.currentLearnedUri.map docSource) s.currentSummary) }

/-! ## Generic lemmas -/

theorem containsIffMem (l : List String) (a : String) : l.contains a = true ↔ a ∈ l :=
  List.elem_iff

theorem containsAppend (l1 l2 : List String) (a : String) :
    (l1 ++ l2).contains a = (l1.contains a || l2.contains a) := by
  by_cases h1 : a ∈ l1 <;> by_cases h2 : a ∈ l2 <;>
    simp [List.elem_iff, List.contains, h1, h2]

/-! ## Lemmas about the document analyzer -/

theorem keepFirstStr_spec (l : List String) : ∀ seen : List String,
    (keepFirstStr seen l).Nodup ∧ ∀ x ∈ keepFirstStr seen l, x ∉ seen := by
  induction l with
  | nil => intro seen; simp [keepFirstStr]
  | cons x xs ih =>
    intro seen
    by_cases h : x ∈ seen
    · have hc : seen.contains x = true := (containsIffMem seen x).mpr h
      simpa [keepFirstStr, hc, h] using ih seen
    · have hc : ¬ seen.contains x = true := fun hh => h ((containsIffMem seen x).mp hh)
      obtain ⟨hnd, hmem⟩ := ih (x :: seen)
      simp only [keepFirstStr, if_neg hc]
      refine ⟨List.nodup_cons.mpr ⟨fun hx => (hmem x hx) (List.mem_cons_self x seen), hnd⟩, ?_⟩
      intro y hy
      rcases List.mem_cons.mp hy with rfl | hy2
      · exact h
      · exact fun hys => (hmem y hy2) (List.mem_cons_of_mem _ hys)

theorem keepFirstStr_length (l : List String) : ∀ seen : List String,
    (keepFirstStr seen l).length ≤ l.length := by
  induction l with
  | nil => intro seen; simp [keepFirstStr]
  | cons x xs ih =>
    intro seen
    by_cases h : seen.contains x = true
    · simp only [keepFirstStr, if_pos h]
      exact Nat.le_succ_of_le (ih seen)
    · simp only [keepFirstStr, if_neg h, List.length_cons]
      exact Nat.succ_le_succ (ih (x :: seen))

theorem keepFirstFn_spec (l : List FnDecl) : ∀ seen : List String,
    ((keepFirstFn seen l).map FnDecl.name).Nodup ∧ ∀ x ∈ keepFirstFn seen l, x.name ∉ seen := by
  induction l with
  | nil => intro seen; simp [keepFirstFn]
  | cons x xs ih =>
    intro seen
    by_cases h : x.name ∈ seen
    · have hc : seen.contains x.name = true := (containsIffMem seen x.name).mpr h
      simpa [keepFirstFn, hc, h] using ih seen
    · have hc : ¬ seen.contains x.name = true := fun hh => h ((containsIffMem seen x.name).mp hh)
      obtain ⟨hnd, hmem⟩ := ih (x.name :: seen)
      simp only [keepFirstFn, if_neg hc, List.map_cons]
      refine ⟨List.nodup_cons.mpr ⟨?_, hnd⟩, ?_⟩
      · intro hx
        obtain ⟨y, hy, hyn⟩ := List.mem_map.mp hx
        exact (hmem y hy) (hyn ▸ List.mem_cons_self x.name seen)
      · intro y hy
        rcases List.mem_cons.mp hy with rfl | hy2
        · exact h
        · exact fun hys => (hmem y hy2) (List.mem_cons_of_mem _ hys)

theorem keepFirstFn_first (l : List FnDecl) : ∀ (seen : List String) (x : FnDecl),
    x ∈ keepFirstFn seen l → l.find? (fun y => y.name == x.name) = some x := by
  induction l with
  | nil => intro seen x hx; simp [keepFirstFn] at hx
  | cons z zs ih =>
    intro seen x hx
    by_cases h : seen.contains z.name = true
    · rw [keepFirstFn, if_pos h] at hx
      have hxs := (keepFirstFn_spec zs seen).2 x hx
      have hzx : ¬ z.name = x.name := by
        intro he
        exact hxs (he ▸ (containsIffMem seen z.name).mp h)
      rw [List.find?_cons_of_neg _ (by simpa using hzx)]
      exact ih seen x hx
    · rw [keepFirstFn, if_neg h] at hx
      rcases List.mem_cons.mp hx with rfl | hx2
      · exact List.find?_cons_of_pos _ (by simp)
      · have hxs := (keepFirstFn_spec zs (z.name :: seen)).2 x hx2
        have hzx : ¬ z.name = x.name := by
          intro he
          exact hxs (he ▸ List.mem_cons_self z.name seen)
        rw [List.find?_cons_of_neg _ (by simpa using hzx)]
        exact ih (z.name :: seen) x hx2

theorem capPush (hs : List String) (v : String) (c : Nat) (h : hs.length ≤ c) :
    (if hs.length < c then hs ++ [v] else hs).length ≤ c := by
  split
  · simp only [List.length_append, List.length_cons, List.length_nil]
    omega
  · exact h

theorem analyzeLoop_caps (isMd : Bool) (lines : List String) : ∀ (i : Nat) (acc : List String × List String × List FnDecl),
    acc.1.length ≤ 5 → acc.2.1.length ≤ 8 →
    (analyzeLoop isMd i lines acc).1.length ≤ 5 ∧ (analyzeLoop isMd i lines acc).2.1.length ≤ 8 := by
  induction lines with
  | nil => intro i acc h5 h8; exact ⟨h5, h8⟩
  | cons l rest ih =>
    intro i acc h5 h8
    obtain ⟨hs, es, fs⟩ := acc
    rw [analyzeLoop]
    apply ih
    · cases hmd : isMd
      · simpa using h5
      · simp only [if_pos rfl]
        cases hh : headingOf l.data
        · exact h5
        · exact capPush hs _ 5 h5
    · cases he : exportNameOf l.data
      · exact h8
      · exact capPush es _ 8 h8

/-- Claim C6: for every document, the summary declarations carry pairwise
distinct names with the first occurrence of each name kept, the exported
names are deduplicated, headings are capped at five entries and exported
names at eight. -/
theorem analyzeDocumentDedupC6 (relP : String → String) (d : Doc) :
    ((analyzeDocument relP d).functions.map FnDecl.name).Nodup ∧
    (∀ f ∈ (analyzeDocument relP d).functions,
      (docScan d).2.2.find? (fun y => y.name == f.name) = some f) ∧
    (analyzeDocument relP d).exports.Nodup ∧
    (analyzeDocument relP d).headings.length ≤ 5 ∧
    (analyzeDocument relP d).exports.length ≤ 8 := by
  have hcaps := analyzeLoop_caps (isMarkdownDoc d) d.lines 0 ([], [], [])
    (by simp) (by simp)
  refine ⟨(keepFirstFn_spec _ []).1, ?_, (keepFirstStr_spec _ []).1, ?_, ?_⟩
  · intro f hf
    exact keepFirstFn_first _ [] f hf
  · exact hcaps.1
  · exact le_trans (keepFirstStr_length _ []) hcaps.2

/-- Witness for C6 at a document with a duplicated declaration name: the kept
entry is the first occurrence. -/
theorem analyzeDocumentDedupC6Witness :
    (docScan ⟨"typescript", "a.ts", "/w/a.ts", ["function dup() \x7b", "function dup() \x7b"]⟩).2.2.find?
      (fun y => y.name == "dup") = some ⟨"dup", 1⟩ :=
  (analyzeDocumentDedupC6 id ⟨"typescript", "a.ts", "/w/a.ts", ["function dup() \x7b", "function dup() \x7b"]⟩).2.1
    ⟨"dup", 1⟩ (by decide)

/-- Claim C7: the three declaration shapes are checked in priority order with
each match ending the checks for its line, a shape only matches at shallow
indentation (at most two leading whitespace characters), and the scenario
document with one exported function at line one yields exactly that
declaration and export. -/
theorem declExtractionC7 :
    ((analyzeDocument id ⟨"typescript", "config.ts", "/w/config.ts", ["export function loadConfig() \x7b\x7d"]⟩).functions = [⟨"loadConfig", 1⟩] ∧
     (analyzeDocument id ⟨"typescript", "config.ts", "/w/config.ts", ["export function loadConfig() \x7b\x7d"]⟩).exports = ["loadConfig"]) ∧
    (∀ cs : List Char, 3 ≤ leadWsCount cs → lineDeclOf cs = none) ∧
    (∀ cs nm, functionDeclOf cs = some nm → lineDeclOf cs = some nm) ∧
    (∀ cs nm, functionDeclOf cs = none → classDeclOf cs = some nm → lineDeclOf cs = some nm) := by
  refine ⟨⟨by decide, by decide⟩, ?_, ?_, ?_⟩
  · intro cs h
    have h2 : ¬ (leadWsCount cs ≤ 2) := by omega
    simp [lineDeclOf, functionDeclOf, classDeclOf, arrowDeclOf, h2]
  · intro cs nm h
    simp [lineDeclOf, h]
  · intro cs nm h hc
    simp [lineDeclOf, h, hc]

/-- Witness for C7: an over-indented function declaration is rejected, and a
class declaration is extracted on a line where the function shape fails. -/
theorem declExtractionC7Witness :
    lineDeclOf "   function hidden() \x7b".data = none ∧
    lineDeclOf "class Greeter \x7b".data = some "Greeter" :=
  ⟨declExtractionC7.2.1 _ (by decide),
   declExtractionC7.2.2.2 _ "Greeter" (by decide) (by decide)⟩

/-- An empty keyword list makes the keyword pass a no-op. -/
theorem kwScan_nilKw (lines : List String) : ∀ (i : Nat) (ev : List Evid),
    kwScan [] i lines ev = ev := by
  induction lines with
  | nil => intro i ev; rfl
  | cons l rest ih =>
    intro i ev
    rw [kwScan]
    split
    · rfl
    · simpa using ih (i + 1) ev

/-- Claim C8: when stopword filtering removes every token and no class or id
selector is extracted, the answer carries no evidence and the message is the
not-found variant, or the declarations pointer when the current summary has
declarations. -/
theorem emptyKeywordsC8 (q : String) (doc : Option Doc) (current : Option SummaryInfo)
    (hk : keywordsOf q = [])
    (hc : extractNamed "class" (lowerStr q) = none)
    (hi : extractNamed "id" (lowerStr q) = none) :
    (buildNextResponse q doc current).evidence = [] ∧
    (buildNextResponse q doc current).message =
      (match current with
       | some c => if c.functions.length != 0 then declsPointerMsg c.functions.length else notFoundMsg
       | none => notFoundMsg) := by
  refine ⟨?_, ?_⟩ <;> cases doc <;> cases current <;>
    simp [buildNextResponse, hk, hc, hi, kwScan_nilKw]

/-- Witness for C8: the question consisting of one stopword yields empty
evidence and the declarations pointer for a summary with one declaration. -/
theorem emptyKeywordsC8Witness :
    (buildNextResponse "what" (some ⟨"html", "index.html", "/w/index.html", ["alpha"]⟩)
      (some ⟨"/w/a.ts", "a.ts", 1, [], [], [⟨"f", 3⟩]⟩)).evidence = [] ∧
    (buildNextResponse "what" (some ⟨"html", "index.html", "/w/index.html", ["alpha"]⟩)
      (some ⟨"/w/a.ts", "a.ts", 1, [], [], [⟨"f", 3⟩]⟩)).message = declsPointerMsg 1 :=
  ⟨(emptyKeywordsC8 "what" _ _ (by decide) (by decide) (by decide)).1,
   ((emptyKeywordsC8 "what" _ _ (by decide) (by decide) (by decide)).2).trans (by rfl)⟩

/-- Claim C10: a markup document and a selector question for which the
selector pass and the keyword pass both collect the same line, so the
evidence lists one line number twice. -/
theorem duplicateEvidenceC10 :
    (buildNextResponse "class menu" (some ⟨"html", "index.html", "/w/index.html", ["<div class=\"menu\">"]⟩) none).evidence =
      [⟨1, "<div class=\"menu\">"⟩, ⟨1, "<div class=\"menu\">"⟩] ∧
    ¬ ((buildNextResponse "class menu" (some ⟨"html", "index.html", "/w/index.html", ["<div class=\"menu\">"]⟩) none).evidence.map Evid.line).Nodup := by
  exact ⟨by decide, by decide⟩

/-! ## Lemmas about the next-suggestion resolver -/

/-- Invariant of the shared resolver state: collected paths are pairwise
distinct, every collected path is in the seen set, and the current file is in
the seen set but never among the collected paths. -/
def NInv (cur : String) (st : NState) : Prop :=
  (st.res.map NextSuggestion.fsPath).Nodup ∧
  (∀ p ∈ st.res.map NextSuggestion.fsPath, p ∈ st.seen) ∧
  cur ∈ st.seen ∧ cur ∉ st.res.map NextSuggestion.fsPath

theorem ninvPush (cur : String) (st : NState) (e : NextSuggestion)
    (hp : e.fsPath ∉ st.seen) (h : NInv cur st) :
    NInv cur ⟨st.seen ++ [e.fsPath], st.res ++ [e]⟩ := by
  obtain ⟨hnd, hsub, hcur, hni⟩ := h
  refine ⟨?_, ?_, List.mem_append_left _ hcur, ?_⟩
  · simp only [List.map_append, List.map_cons, List.map_nil]
    rw [List.nodup_append]
    refine ⟨hnd, List.nodup_singleton _, ?_⟩
    intro a ha
    simp only [List.mem_singleton]
    intro he
    exact hp (he ▸ hsub a ha)
  · intro p hp2
    simp only [List.map_append, List.map_cons, List.map_nil, List.mem_append,
      List.mem_singleton] at hp2
    rcases hp2 with hp2 | rfl
    · exact List.mem_append_left _ (hsub p hp2)
    · exact List.mem_append_right _ (List.mem_singleton_self _)
  · simp only [List.map_append, List.map_cons, List.map_nil, List.mem_append,
      List.mem_singleton]
    rintro (hcm | rfl)
    · exact hni hcm
    · exact hp hcur

theorem tier1Step_ninv (statV : String → Bool) (joinP : String → String → String)
    (relP : String → String) (learned : List String) (dir : String) (cur : String)
    (st : NState) (spec : String) (h : NInv cur st) :
    NInv cur (tier1Step statV joinP relP learned dir st spec) := by
  unfold tier1Step
  by_cases hsp : startsWithDot spec
  · simp only [if_pos hsp]
    cases resolveImport statV joinP dir spec with
    | none => exact h
    | some c =>
      by_cases hc : st.seen.contains c = true
      · simp only [if_pos hc]
        exact h
      · simp only [if_neg hc]
        exact ninvPush cur st _ (fun hm => hc ((containsIffMem _ _).mpr hm)) h
  · simp only [if_neg hsp]
    exact h

theorem tier1_ninv (statV : String → Bool) (joinP : String → String → String)
    (relP : String → String) (learned : List String) (dir : String) (cur : String)
    (specs : List String) : ∀ st : NState, NInv cur st →
    NInv cur (tier1 statV joinP relP learned dir specs st) := by
  induction specs with
  | nil => intro st h; exact h
  | cons s ss ih =>
    intro st h
    exact ih _ (tier1Step_ninv statV joinP relP learned dir cur st s h)

theorem tier2Scan_ninv (relP : String → String) (cur : String)
    (steps : List WalkStep) : ∀ st : NState, NInv cur st →
    NInv cur (tier2Scan relP steps st) := by
  induction steps with
  | nil => intro st h; exact h
  | cons s rest ih =>
    intro st h
    rw [tier2Scan]
    cases s.target with
    | none => exact ih st h
    | some t =>
      by_cases hc : st.seen.contains t = true
      · simp only [if_pos hc]
        exact ih st h
      · simp only [if_neg hc]
        exact ninvPush cur st _ (fun hm => hc ((containsIffMem _ _).mpr hm)) h

theorem tier2_ninv (relP : String → String) (steps : List WalkStep) (cur : String)
    (st : NState) (h : NInv cur st) : NInv cur (tier2 relP steps cur st) := by
  unfold tier2
  cases steps.findIdx? (fun s => s.target == some cur) with
  | none => exact h
  | some i => exact tier2Scan_ninv relP cur _ st h

theorem tier3_ninv (learned : List String) (cur : String)
    (gs : List GuideSuggestion) : ∀ st : NState, NInv cur st →
    NInv cur (tier3 learned gs st) := by
  induction gs with
  | nil => intro st h; exact h
  | cons g rest ih =>
    intro st h
    rw [tier3]
    set st2 := (if !st.seen.contains g.path && !learned.contains g.path then
        (⟨st.seen ++ [g.path], st.res ++ [⟨g.label, g.reason, g.path⟩]⟩ : NState) else st) with hst2
    have h2 : NInv cur st2 := by
      rw [hst2]
      split
      · next hcond =>
        have hns : ¬ st.seen.contains g.path = true := by
          intro hcc
          rw [hcc] at hcond
          simp at hcond
        exact ninvPush cur st _ (fun hm => hns ((containsIffMem _ _).mpr hm)) h
      · exact h
    split
    · exact h2
    · exact ih _ h2

theorem tier3_len (learned : List String) (gs : List GuideSuggestion) :
    ∀ st : NState, (tier3 learned gs st).res.length ≤ max (st.res.length + 1) 6 := by
  induction gs with
  | nil =>
    intro st
    rw [tier3]
    exact le_max_of_le_left (Nat.le_succ _)
  | cons g rest ih =>
    intro st
    rw [tier3]
    set st2 := (if !st.seen.contains g.path && !learned.contains g.path then
        (⟨st.seen ++ [g.path], st.res ++ [⟨g.label, g.reason, g.path⟩]⟩ : NState) else st) with hst2
    have hlen2 : st2.res.length ≤ st.res.length + 1 := by
      rw [hst2]
      split
      · simp
      · exact Nat.le_succ _
    split
    · next =>
      exact le_max_of_le_left hlen2
    · next h6 =>
      have h5 : st2.res.length ≤ 5 := by omega
      calc (tier3 learned rest st2).res.length ≤ max (st2.res.length + 1) 6 := ih st2
        _ ≤ 6 := max_le (by omega) (le_refl 6)
        _ ≤ max (st.res.length + 1) 6 := le_max_right _ _

/-- Claim C1 (amended): the next-suggestion list never contains the current
file and never repeats a path across the tiers; the six-entry cap is enforced
only by the third tier, so the total is bounded by the larger of six and one
more than the tiers-one-and-two total. -/
theorem nextSuggestionsDedupC1 (statV : String → Bool) (joinP : String → String → String)
    (relP : String → String) (learned : List String) (text current : String)
    (suggestions : List GuideSuggestion) (steps : List WalkStep) :
    current ∉ (buildNextSuggestions statV joinP relP learned text current suggestions steps).map NextSuggestion.fsPath ∧
    ((buildNextSuggestions statV joinP relP learned text current suggestions steps).map NextSuggestion.fsPath).Nodup ∧
    (buildNextSuggestions statV joinP relP learned text current suggestions steps).length ≤
      max ((tier12 statV joinP relP learned text current steps).res.length + 1) 6 := by
  have h0 : NInv current ⟨[current], []⟩ := by
    refine ⟨List.nodup_nil, ?_, List.mem_singleton_self _, ?_⟩ <;> simp
  have h12 : NInv current (tier12 statV joinP relP learned text current steps) :=
    tier2_ninv relP steps current _
      (tier1_ninv statV joinP relP learned (joinP current "..") current (parseImports text) _ h0)
  have h3 := tier3_ninv learned current suggestions _ h12
  exact ⟨h3.2.2.2, h3.1, tier3_len learned suggestions _⟩

/-- Counterexample to claim C1 as stated: a current file with seven resolvable
relative imports makes tier one alone emit seven entries, so the combined
list exceeds six entries. -/
theorem nextSuggestionsCapCounterC1 :
    (buildNextSuggestions
      (fun p => (["/w/cur.ts/.././a1", "/w/cur.ts/.././a2", "/w/cur.ts/.././a3",
                  "/w/cur.ts/.././a4", "/w/cur.ts/.././a5", "/w/cur.ts/.././a6",
                  "/w/cur.ts/.././a7"] : List String).contains p)
      (fun d s => d ++ "/" ++ s) (fun s => s) []
      "require(\"./a1\")\nrequire(\"./a2\")\nrequire(\"./a3\")\nrequire(\"./a4\")\nrequire(\"./a5\")\nrequire(\"./a6\")\nrequire(\"./a7\")"
      "/w/cur.ts" [] []).length = 7 := by
  decide

/-! ## Lemmas for the learned-set claim -/

/-- The label-and-path view of a resolver result, forgetting the reasons. -/
def pathView (l : List NextSuggestion) : List (String × String) :=
  l.map (fun r => (r.label, r.fsPath))

theorem tier1Step_indep (statV : String → Bool) (joinP : String → String → String)
    (relP : String → String) (L1 L2 : List String) (dir spec : String)
    (st1 st2 : NState) (hs : st1.seen = st2.seen) (hr : pathView st1.res = pathView st2.res) :
    (tier1Step statV joinP relP L1 dir st1 spec).seen = (tier1Step statV joinP relP L2 dir st2 spec).seen ∧
    pathView (tier1Step statV joinP relP L1 dir st1 spec).res = pathView (tier1Step statV joinP relP L2 dir st2 spec).res := by
  unfold tier1Step
  by_cases hsp : startsWithDot spec
  · simp only [if_pos hsp]
    cases resolveImport statV joinP dir spec with
    | none => exact ⟨hs, hr⟩
    | some c =>
      rw [hs]
      by_cases hc : st2.seen.contains c = true
      · simp only [if_pos hc]
        exact ⟨hs, hr⟩
      · simp only [if_neg hc]
        constructor
        · trivial
        · simp only [pathView] at hr
          simp only [pathView, List.map_append, List.map_cons, List.map_nil, hr]
  · simp only [if_neg hsp]
    exact ⟨hs, hr⟩

theorem tier1_indep (statV : String → Bool) (joinP : String → String → String)
    (relP : String → String) (L1 L2 : List String) (dir : String) (specs : List String) :
    ∀ st1 st2 : NState, st1.seen = st2.seen → pathView st1.res = pathView st2.res →
    (tier1 statV joinP relP L1 dir specs st1).seen = (tier1 statV joinP relP L2 dir specs st2).seen ∧
    pathView (tier1 statV joinP relP L1 dir specs st1).res = pathView (tier1 statV joinP relP L2 dir specs st2).res := by
  induction specs with
  | nil => intro st1 st2 hs hr; exact ⟨hs, hr⟩
  | cons s ss ih =>
    intro st1 st2 hs hr
    have hstep := tier1Step_indep statV joinP relP L1 L2 dir s st1 st2 hs hr
    exact ih _ _ hstep.1 hstep.2

theorem tier2Scan_indep (relP : String → String) (steps : List WalkStep) :
    ∀ st1 st2 : NState, st1.seen = st2.seen → pathView st1.res = pathView st2.res →
    (tier2Scan relP steps st1).seen = (tier2Scan relP steps st2).seen ∧
    pathView (tier2Scan relP steps st1).res = pathView (tier2Scan relP steps st2).res := by
  induction steps with
  | nil => intro st1 st2 hs hr; exact ⟨hs, hr⟩
  | cons s rest ih =>
    intro st1 st2 hs hr
    rw [tier2Scan, tier2Scan]
    cases s.target with
    | none => exact ih st1 st2 hs hr
    | some t =>
      rw [hs]
      by_cases hc : st2.seen.contains t = true
      · simp only [if_pos hc]
        exact ih st1 st2 hs hr
      · simp only [if_neg hc]
        constructor
        · trivial
        · simp only [pathView] at hr
          simp only [pathView, List.map_append, List.map_cons, List.map_nil, hr]


theorem tier12_indep (statV : String → Bool) (joinP : String → String → String)
    (relP : String → String) (L1 L2 : List String) (text current : String) (steps : List WalkStep) :
    (tier12 statV joinP relP L1 text current steps).seen = (tier12 statV joinP relP L2 text current steps).seen ∧
    pathView (tier12 statV joinP relP L1 text current steps).res = pathView (tier12 statV joinP relP L2 text current steps).res := by
  have h1 := tier1_indep statV joinP relP L1 L2 (joinP current "..") (parseImports text)
    ⟨[current], []⟩ ⟨[current], []⟩ rfl rfl
  unfold tier12 tier2
  cases steps.findIdx? (fun s => s.target == some current) with
  | none => exact h1
  | some i => exact tier2Scan_indep relP (steps.drop (i + 1)) _ _ h1.1 h1.2

theorem subset_setAdd (l : List String) (p : String) : l ⊆ setAdd l p := by
  unfold setAdd
  split
  · exact List.Subset.refl l
  · exact List.subset_append_left l [p]

/-- Claim C9: the learned set grows monotonically and never shrinks; learning
a file is the only message that changes it, and it changes it by inserting
the path of that file; tiers one and two of the resolver produce the same labels
and paths for any learned set, so the learned set filters suggestions only in
the third tier. -/
theorem learnedSetMonotoneC9 (docSource : String → Doc) (relP : String → String) (s : Session) :
    (∀ m, s.learnedFiles ⊆ (applyMsg docSource relP s m).learnedFiles) ∧
    (∀ p, (applyMsg docSource relP s (GuideMsg.learnFile p)).learnedFiles = setAdd s.learnedFiles (docSource p).fsPath) ∧
    (∀ p, (applyMsg docSource relP s (GuideMsg.openFile p)).learnedFiles = s.learnedFiles) ∧
    (∀ p n, (applyMsg docSource relP s (GuideMsg.jumpToLine p n)).learnedFiles = s.learnedFiles) ∧
    (∀ t, (applyMsg docSource relP s (GuideMsg.askNext t)).learnedFiles = s.learnedFiles) ∧
    (∀ (statV : String → Bool) (joinP : String → String → String) (relP2 : String → String)
       (L1 L2 : List String) (text current : String) (steps : List WalkStep),
      pathView (tier12 statV joinP relP2 L1 text current steps).res =
        pathView (tier12 statV joinP relP2 L2 text current steps).res) := by
  refine ⟨?_, fun p => rfl, fun p => rfl, fun p n => rfl, fun t => rfl, ?_⟩
  · intro m
    cases m with
    | learnFile p => exact subset_setAdd _ _
    | openFile p => exact List.Subset.refl _
    | jumpToLine p n => exact List.Subset.refl _
    | askNext t => exact List.Subset.refl _
  · intro statV joinP relP2 L1 L2 text current steps
    exact (tier12_indep statV joinP relP2 L1 L2 text current steps).2

/-! ## Lemmas about the suggestion ranker -/

theorem addCandidates_seen (relP : String → String) (r : String) (us : List String) :
    ∀ (st : GState) (x : String), x ∈ (addCandidates relP r us st).seen ↔ x ∈ st.seen ∨ x ∈ us := by
  induction us with
  | nil => intro st x; simp [addCandidates]
  | cons u us2 ih =>
    intro st x
    rw [addCandidates]
    by_cases h : st.seen.contains u = true
    · rw [if_pos h, ih]
      have hu : u ∈ st.seen := (containsIffMem _ _).mp h
      constructor
      · rintro (hx | hx)
        · exact Or.inl hx
        · exact Or.inr (List.mem_cons_of_mem _ hx)
      · rintro (hx | hx)
        · exact Or.inl hx
        · rcases List.mem_cons.mp hx with rfl | hx2
          · exact Or.inl hu
          · exact Or.inr hx2
    · rw [if_neg h, ih]
      simp only [List.mem_append, List.mem_singleton, List.mem_cons]
      tauto

theorem addCandidates_filter (relP : String → String) (r : String) (us : List String) (p : String) :
    ∀ st : GState, (addCandidates relP r us st).out.filter (fun g => g.path == p) =
      st.out.filter (fun g => g.path == p) ++
        (if p ∈ us ∧ p ∉ st.seen then [⟨relP p, r, p⟩] else []) := by
  induction us with
  | nil => intro st; simp [addCandidates]
  | cons u us2 ih =>
    intro st
    rw [addCandidates]
    by_cases h : st.seen.contains u = true
    · rw [if_pos h, ih st]
      congr 1
      have hu : u ∈ st.seen := (containsIffMem _ _).mp h
      by_cases hp : p ∈ us2 ∧ p ∉ st.seen
      · rw [if_pos hp, if_pos ⟨List.mem_cons_of_mem _ hp.1, hp.2⟩]
      · rw [if_neg hp, if_neg ?_]
        rintro ⟨hmem, hns⟩
        rcases List.mem_cons.mp hmem with rfl | hmem2
        · exact hns hu
        · exact hp ⟨hmem2, hns⟩
    · rw [if_neg h, ih]
      have hun : u ∉ st.seen := fun hx => h ((containsIffMem _ _).mpr hx)
      simp only [List.filter_append]
      by_cases hup : u = p
      · subst hup
        have h1 : List.filter (fun g => g.path == u) [(⟨relP u, r, u⟩ : GuideSuggestion)] =
            [⟨relP u, r, u⟩] := by simp
        have h2 : ¬ (u ∈ us2 ∧ u ∉ st.seen ++ [u]) := by
          rintro ⟨_, hns⟩
          exact hns (List.mem_append_right _ (List.mem_singleton_self u))
        have h3 : u ∈ u :: us2 ∧ u ∉ st.seen := ⟨List.mem_cons_self _ _, hun⟩
        rw [h1, if_neg h2, if_pos h3, List.append_nil]
      · have h1 : List.filter (fun g => g.path == p) [(⟨relP u, r, u⟩ : GuideSuggestion)] =
            [] := by simp [hup]
        have hiff : (p ∈ us2 ∧ p ∉ st.seen ++ [u]) ↔ (p ∈ u :: us2 ∧ p ∉ st.seen) := by
          constructor
          · rintro ⟨hm, hns⟩
            exact ⟨List.mem_cons_of_mem _ hm, fun hx => hns (List.mem_append_left _ hx)⟩
          · rintro ⟨hm, hns⟩
            refine ⟨?_, ?_⟩
            · rcases List.mem_cons.mp hm with rfl | hm2
              · exact absurd rfl hup
              · exact hm2
            · intro hx
              rcases List.mem_append.mp hx with hx2 | hx2
              · exact hns hx2
              · exact hup (List.mem_singleton.mp hx2).symm
        rw [h1, List.append_nil]
        congr 1
        exact if_congr hiff rfl rfl

theorem rankGo_append (relP : String → String) (ff : String → List String)
    (l1 l2 : List (String × String)) : ∀ st,
    rankGo relP ff (l1 ++ l2) st = rankGo relP ff l2 (rankGo relP ff l1 st) := by
  induction l1 with
  | nil => intro st; rfl
  | cons r rs ih => intro st; rw [List.cons_append, rankGo, rankGo]; exact ih _

theorem rankGo_skip (relP : String → String) (ff : String → List String)
    (rs : List (String × String)) (p : String) :
    ∀ st : GState, p ∉ st.seen → (∀ r ∈ rs, p ∉ ff r.1) →
    (rankGo relP ff rs st).out.filter (fun g => g.path == p) = st.out.filter (fun g => g.path == p) ∧
    p ∉ (rankGo relP ff rs st).seen := by
  induction rs with
  | nil => intro st hp _; exact ⟨rfl, hp⟩
  | cons r rs2 ih =>
    intro st hp hall
    rw [rankGo]
    have hnr : p ∉ ff r.1 := hall r (List.mem_cons_self _ _)
    have hp2 : p ∉ (addCandidates relP r.2 (ff r.1) st).seen := by
      intro hx
      rcases (addCandidates_seen relP r.2 (ff r.1) st p).mp hx with hx2 | hx2
      · exact hp hx2
      · exact hnr hx2
    obtain ⟨ihf, ihs⟩ := ih _ hp2 (fun r2 hr2 => hall r2 (List.mem_cons_of_mem _ hr2))
    refine ⟨?_, ihs⟩
    rw [ihf, addCandidates_filter, if_neg (fun hx => hnr hx.1), List.append_nil]

theorem rankGo_after (relP : String → String) (ff : String → List String)
    (rs : List (String × String)) (p : String) :
    ∀ st : GState, p ∈ st.seen →
    (rankGo relP ff rs st).out.filter (fun g => g.path == p) = st.out.filter (fun g => g.path == p) := by
  induction rs with
  | nil => intro st _; rfl
  | cons r rs2 ih =>
    intro st hp
    rw [rankGo]
    have hp2 : p ∈ (addCandidates relP r.2 (ff r.1) st).seen :=
      (addCandidates_seen relP r.2 (ff r.1) st p).mpr (Or.inl hp)
    rw [ih _ hp2, addCandidates_filter, if_neg (fun hx => hx.2 hp), List.append_nil]

theorem mem_take_idx {α : Type} (l : List α) : ∀ (i : Nat) (x : α), x ∈ l.take i →
    ∃ k, k < i ∧ l[k]? = some x := by
  induction l with
  | nil => intro i x h; simp at h
  | cons a l2 ih =>
    intro i x h
    cases i with
    | zero => simp at h
    | succ n =>
      rw [List.take_succ_cons] at h
      rcases List.mem_cons.mp h with rfl | h2
      · exact ⟨0, Nat.succ_pos n, by simp⟩
      · obtain ⟨k, hk, hke⟩ := ih n x h2
        exact ⟨k + 1, Nat.succ_lt_succ hk, by simpa using hke⟩

/-- Claim C2: a file returned by the file search for rule i and also matching
a later rule j appears exactly once in the ranked output, carrying the reason
of rule i (the first rule that returned it); the model of the file-search
collaborator carries the twenty-match cap and the dependency-cache exclusion. -/
theorem guideSuggestionsFirstWinsC2 (globM : String → String → Bool) (files : List String)
    (relP : String → String) (rules : List (String × String)) (i j : Nat)
    (ri rj : String × String) (p : String)
    (hi : rules[i]? = some ri) (hj : rules[j]? = some rj) (hij : i < j)
    (hpi : p ∈ findFilesModel globM files ri.1)
    (hpj : p ∈ findFilesModel globM files rj.1)
    (hfirst : ∀ k rk, k < i → rules[k]? = some rk → p ∉ findFilesModel globM files rk.1) :
    ((buildGuideSuggestionsR globM files relP rules).filter (fun g => g.path == p)).length = 1 ∧
    (∀ g ∈ buildGuideSuggestionsR globM files relP rules, g.path = p → g.reason = ri.2) := by
  obtain ⟨hilen, hget⟩ := List.getElem?_eq_some.mp hi
  have hsplit : rules = rules.take i ++ ri :: rules.drop (i + 1) := by
    conv_lhs => rw [← List.take_append_drop i rules]
    rw [List.drop_eq_getElem_cons hilen, hget]
  have hpre : ∀ r ∈ rules.take i, p ∉ findFilesModel globM files r.1 := by
    intro r hr
    obtain ⟨k, hk, hkr⟩ := mem_take_idx rules i r hr
    exact hfirst k r hk hkr
  have h1 := rankGo_skip relP (findFilesModel globM files) (rules.take i) p ⟨[], []⟩ (by simp) hpre
  have hfinal : (buildGuideSuggestionsR globM files relP rules).filter (fun g => g.path == p) =
      [⟨relP p, ri.2, p⟩] := by
    unfold buildGuideSuggestionsR
    conv_lhs => rw [hsplit]
    rw [rankGo_append, rankGo]
    set st1 := rankGo relP (findFilesModel globM files) (rules.take i) ⟨[], []⟩ with hst1
    have hst1f : st1.out.filter (fun g => g.path == p) = [] := by
      have := h1.1
      simpa using this
    have hp2seen : p ∈ (addCandidates relP ri.2 (findFilesModel globM files ri.1) st1).seen :=
      (addCandidates_seen relP ri.2 (findFilesModel globM files ri.1) st1 p).mpr (Or.inr hpi)
    rw [rankGo_after relP (findFilesModel globM files) (rules.drop (i + 1)) p _ hp2seen]
    rw [addCandidates_filter, hst1f, if_pos ⟨hpi, h1.2⟩, List.nil_append]
  constructor
  · rw [hfinal]
    rfl
  · intro g hg hgp
    have hgf : g ∈ (buildGuideSuggestionsR globM files relP rules).filter (fun g => g.path == p) :=
      List.mem_filter.mpr ⟨hg, by simp [hgp]⟩
    rw [hfinal, List.mem_singleton] at hgf
    rw [hgf]

/-- Witness for C2: two rules whose globs both return file a; the output lists
file a once, with the reason of the first rule. -/
theorem guideSuggestionsFirstWinsC2Witness :
    ((buildGuideSuggestionsR
        (fun g f => decide ((g, f) ∈ [("g1", "a"), ("g2", "a"), ("g2", "b")]))
        ["a", "b"] (fun s => s) [("g1", "r1"), ("g2", "r2")]).filter
      (fun g => g.path == "a")).length = 1 :=
  (guideSuggestionsFirstWinsC2
    (fun g f => decide ((g, f) ∈ [("g1", "a"), ("g2", "a"), ("g2", "b")]))
    ["a", "b"] (fun s => s) [("g1", "r1"), ("g2", "r2")] 0 1 ("g1", "r1") ("g2", "r2") "a"
    rfl rfl (by decide) (by decide) (by decide)
    (fun k rk hk _ => absurd hk (Nat.not_lt_zero k))).1

/-! ## Decomposition of the walkthrough builder -/

/-- The two opening steps of the walkthrough. -/
def openingSteps (sugg : List GuideSuggestion) : List WalkStep :=
  [⟨"Read the README", "Start with project goals, setup, and quickstart notes.",
    findByEndsWith sugg ["readme.md"]⟩,
   ⟨"Check package or build config", "Look for scripts, dependencies, and entry points.",
    findByEndsWith sugg ["package.json", "pyproject.toml", "pom.xml", "build.gradle"]⟩]

/-- The four generic closing steps of the walkthrough. -/
def closingSteps (sugg : List GuideSuggestion) : List WalkStep :=
  [⟨"Find the app entry point", "Locate the main file that starts the app runtime.",
    findByEndsWith sugg ["src/index.ts", "src/index.js", "src/main.ts", "src/main.js", "src/app.ts", "src/app.js", "src/server.ts", "src/server.js"]⟩,
   ⟨"Trace routes or pages", "Identify how requests or pages are registered.",
    findByEndsWith sugg ["src/routes/index.ts", "src/routes/index.js", "src/pages/index.tsx", "src/pages/index.jsx"]⟩,
   ⟨"Inspect controllers or handlers", "See how endpoints map to logic.",
    findByContains sugg "controllers/"⟩,
   ⟨"Follow data and services", "Find services, database clients, or data access layers.",
    findByContains sugg "services/"⟩]

/-- The framework branches of the walkthrough in the scan order of the source:
Next.js, React (with its Vite pairing), Vue, Angular, Svelte, Astro, Nuxt,
NestJS, and one shared Express/Fastify branch. -/
def frameworkSections (sugg : List GuideSuggestion) (frameworks : List String) : List (List WalkStep) :=
  [if frameworks.contains "Next.js" then
      [⟨"Review Next.js routing", "Routes come from app/ or pages/ directories.",
        findByEndsWith sugg ["app/layout.tsx", "app/page.tsx", "pages/_app.tsx", "pages/index.tsx"]⟩,
       ⟨"Check API routes", "Look under app/api or pages/api for endpoints.",
        (findByContains sugg "pages/api/").orElse (fun _ => findByContains sugg "app/api/")⟩]
    else [],
   if frameworks.contains "React" && frameworks.contains "Vite" then
      [⟨"Check Vite entry", "Vite typically starts in src/main.tsx or src/main.jsx.",
        findByEndsWith sugg ["src/main.tsx", "src/main.jsx", "src/main.ts", "src/main.js"]⟩,
       ⟨"Locate the root component", "Trace into App.tsx or App.jsx.",
        findByEndsWith sugg ["src/App.tsx", "src/App.jsx", "src/App.ts", "src/App.js"]⟩]
    else if frameworks.contains "React" then
      [⟨"Locate the root component", "Trace into App.tsx or App.jsx.",
        findByEndsWith sugg ["src/App.tsx", "src/App.jsx", "src/App.ts", "src/App.js"]⟩]
    else [],
   if frameworks.contains "Vue" then
      [⟨"Check Vue entry", "Vue apps typically start in src/main.ts or src/main.js.",
        findByEndsWith sugg ["src/main.ts", "src/main.js"]⟩,
       ⟨"Review root component", "Look for App.vue to understand layout and providers.",
        findByEndsWith sugg ["src/App.vue"]⟩,
       ⟨"Check routing", "Vue Router lives in src/router.",
        findByContains sugg "src/router/"⟩]
    else [],
   if frameworks.contains "Angular" then
      [⟨"Check Angular module", "AppModule wires components and providers.",
        findByEndsWith sugg ["src/app/app.module.ts"]⟩,
       ⟨"Check routing module", "Routes live in app-routing.module.ts.",
        findByEndsWith sugg ["src/app/app-routing.module.ts"]⟩]
    else [],
   if frameworks.contains "Svelte" then
      [⟨"Check Svelte entry", "SvelteKit routes live in src/routes.",
        findByContains sugg "src/routes/"⟩,
       ⟨"Check Svelte config", "Svelte config defines adapters and preprocessors.",
        findByEndsWith sugg ["svelte.config.js", "svelte.config.ts"]⟩]
    else [],
   if frameworks.contains "Astro" then
      [⟨"Check Astro pages", "Astro routes live in src/pages.",
        findByContains sugg "src/pages/"⟩,
       ⟨"Check Astro config", "Integrations and build settings are in astro.config.*.",
        findByEndsWith sugg ["astro.config.mjs", "astro.config.ts", "astro.config.js"]⟩]
    else [],
   if frameworks.contains "Nuxt" then
      [⟨"Check Nuxt app entry", "Nuxt uses pages/ and app.vue for layout.",
        findByEndsWith sugg ["app.vue", "pages/index.vue"]⟩,
       ⟨"Check Nuxt config", "Modules and runtime config live in nuxt.config.*.",
        findByEndsWith sugg ["nuxt.config.ts", "nuxt.config.js", "nuxt.config.mjs"]⟩]
    else [],
   if frameworks.contains "NestJS" then
      [⟨"Check NestJS entry", "Bootstrap happens in main.ts.",
        findByEndsWith sugg ["src/main.ts"]⟩,
       ⟨"Inspect the root module", "AppModule wires controllers and providers.",
        findByEndsWith sugg ["src/app.module.ts"]⟩]
    else [],
   if frameworks.contains "Express" || frameworks.contains "Fastify" then
      [⟨"Find server setup", "Look for app.ts/server.ts to see middleware and routes.",
        findByEndsWith sugg ["src/app.ts", "src/server.ts", "server.js", "app.js"]⟩,
       ⟨"Trace route registration", "Routes are usually organized under src/routes.",
        findByContains sugg "src/routes/"⟩]
    else []]

theorem ite_app {α : Type} (c : Prop) [Decidable c] (l a : List α) :
    (if c then l ++ a else l) = l ++ (if c then a else []) := by
  split
  · rfl
  · rw [List.append_nil]

theorem ite_app2 {α : Type} (c1 c2 : Prop) [Decidable c1] [Decidable c2] (l a b : List α) :
    (if c1 then l ++ a else if c2 then l ++ b else l) =
      l ++ (if c1 then a else if c2 then b else []) := by
  split
  · rfl
  · split
    · rfl
    · rw [List.append_nil]

/-- Claim C3 (amended): the walkthrough always opens with the README and
package/build-config steps, appends each framework branch additively in the
fixed source scan order Next.js, React (the Vite pair superseding the plain
React step when both are detected), Vue, Angular, Svelte, Astro, Nuxt,
NestJS, then one shared Express/Fastify branch, and always closes with the
four generic steps. The scan order places Astro before Nuxt, unlike the
detector name list, and Express and Fastify share one branch. -/
theorem walkthroughOrderC3 (sugg : List GuideSuggestion) (fw : List String) :
    buildWalkthroughSteps sugg fw =
      openingSteps sugg ++ (frameworkSections sugg fw).join ++ closingSteps sugg := by
  simp only [buildWalkthroughSteps]
  rw [ite_app, ite_app, ite_app, ite_app, ite_app, ite_app, ite_app, ite_app2, ite_app]
  simp only [openingSteps, frameworkSections, closingSteps, List.join,
    List.flatten_cons, List.flatten_nil, List.append_nil, List.append_assoc]

/-- Counterexample to claim C3 as stated: with Nuxt and Astro both detected
(the detector returns them with Nuxt first), the walkthrough emits the Astro
branch before the Nuxt branch, so the branch order does not match the
detector name list. -/
theorem walkthroughOrderCounterC3 :
    detectFrameworks (some ⟨["nuxt", "astro"], []⟩) (fun _ => false) = ["Nuxt", "Astro"] ∧
    (buildWalkthroughSteps [] ["Nuxt", "Astro"]).map WalkStep.title =
      ["Read the README", "Check package or build config", "Check Astro pages",
       "Check Astro config", "Check Nuxt app entry", "Check Nuxt config",
       "Find the app entry point", "Trace routes or pages",
       "Inspect controllers or handlers", "Follow data and services"] ∧
    (buildWalkthroughSteps [] ["Nuxt", "Astro"]).map WalkStep.title ≠
      ["Read the README", "Check package or build config", "Check Nuxt app entry",
       "Check Nuxt config", "Check Astro pages", "Check Astro config",
       "Find the app entry point", "Trace routes or pages",
       "Inspect controllers or handlers", "Follow data and services"] := by
  exact ⟨by decide, by decide, by decide⟩

/-! ## Tier-one resolution order and framework detection -/

theorem firstExisting_at (f : String → Bool) : ∀ (l : List String) (i : Nat), i < l.length →
    f (l.getD i "") = true → (∀ k, k < i → ¬ f (l.getD k "") = true) →
    firstExisting f l = some (l.getD i "") := by
  intro l
  induction l with
  | nil => intro i hi; simp at hi
  | cons c cs ih =>
    intro i hi hf hk
    cases i with
    | zero =>
      rw [firstExisting]
      simp only [List.getD_cons_zero] at hf ⊢
      rw [if_pos hf]
    | succ n =>
      rw [firstExisting]
      have hc : ¬ f c = true := by
        have := hk 0 (Nat.succ_pos n)
        simpa using this
      rw [if_neg hc]
      simp only [List.getD_cons_succ] at hf ⊢
      exact ih n (Nat.lt_of_succ_lt_succ hi) hf
        (fun k hkk => by simpa using hk (k + 1) (Nat.succ_lt_succ hkk))

/-- Claim C4: tier-one resolution tries the nine candidates in the fixed
extension order against the directory of the current file, accepts the first
existing candidate and stops; in particular a specifier whose bare form does
not exist but whose .ts form does resolves to the .ts form, regardless of any
later extension. -/
theorem importResolutionC4 (statV : String → Bool) (joinP : String → String → String)
    (dir spec : String) :
    importCandidates joinP dir spec =
      [joinP dir (spec ++ ""), joinP dir (spec ++ ".ts"), joinP dir (spec ++ ".tsx"),
       joinP dir (spec ++ ".js"), joinP dir (spec ++ ".jsx"), joinP dir (spec ++ "/index.ts"),
       joinP dir (spec ++ "/index.tsx"), joinP dir (spec ++ "/index.js"), joinP dir (spec ++ "/index.jsx")] ∧
    (∀ i, i < 9 → statV ((importCandidates joinP dir spec).getD i "") = true →
      (∀ k, k < i → ¬ statV ((importCandidates joinP dir spec).getD k "") = true) →
      resolveImport statV joinP dir spec = some ((importCandidates joinP dir spec).getD i "")) ∧
    (¬ statV (joinP dir (spec ++ "")) = true → statV (joinP dir (spec ++ ".ts")) = true →
      resolveImport statV joinP dir spec = some (joinP dir (spec ++ ".ts"))) := by
  refine ⟨rfl, ?_, ?_⟩
  · intro i hi hf hk
    have hlen : (importCandidates joinP dir spec).length = 9 := by
      simp [importCandidates, extList]
    exact firstExisting_at statV _ i (by rw [hlen]; exact hi) hf hk
  · intro h0 h1
    unfold resolveImport importCandidates extList
    simp only [List.map_cons, List.map_nil]
    rw [firstExisting, if_neg h0, firstExisting, if_pos h1]

/-- Witness for C4: the bare candidate is absent, the .ts candidate exists,
and resolution accepts the .ts candidate. -/
theorem importResolutionC4Witness :
    resolveImport (fun p => p == "d/utils.ts") (fun a b => a ++ "/" ++ b) "d" "utils" =
      some "d/utils.ts" :=
  (importResolutionC4 (fun p => p == "d/utils.ts") (fun a b => a ++ "/" ++ b) "d" "utils").2.2
    (by decide) (by decide)

/-- Claim C5: framework detection consults the merged dependency names first;
the config-file fallback is consulted exactly when the manifest pass yields
the empty set (in particular when the manifest is absent, which models the
missing, unreadable and malformed cases of readWorkspacePackageJson), total
absence of evidence yields the empty set, and detection is a total function
of the merged dependency-name set. -/
theorem detectFrameworksC5 (pj : Option Manifest) (ffOne : String → Bool) :
    (detectFrameworks pj ffOne =
      if manifestFrameworks pj = [] then fallbackFrameworks ffOne [] else manifestFrameworks pj) ∧
    detectFrameworks none ffOne = fallbackFrameworks ffOne [] ∧
    detectFrameworks none (fun _ => false) = [] ∧
    (∀ d v, detectFrameworks (some ⟨d, v⟩) ffOne = detectFrameworks (some ⟨d ++ v, []⟩) ffOne) := by
  refine ⟨?_, rfl, rfl, ?_⟩
  · unfold detectFrameworks
    cases hm : manifestFrameworks pj with
    | nil => simp [hm]
    | cons a l => simp [hm]
  · intro d v
    have hdep : (fun n => hasDep (some ⟨d, v⟩) n) = (fun n => hasDep (some ⟨d ++ v, []⟩) n) := by
      funext n
      simp [hasDep, containsAppend]
    unfold detectFrameworks manifestFrameworks
    rw [hdep]
